import Mathlib

/-!
Shallow embedding of the jetstack/kubebuilder-sample-controller reconcile
logic (controllers/mykind_controller.go, api/v1beta1/mykind_types.go).

Machine integers (`int32`) are modelled as `Int`: the controller only copies
and compares replica counts, never performs arithmetic on them, so no
overflow behaviour is reachable. Go nil pointers (`*int32`) are `Option Int`;
dereferencing `none` is the distinguished outcome `Outcome.nilDeref`.
Fallible client calls are driven by an explicit fault-injection record so
that error-handling claims can be stated; the store itself is a pair of
association lists keyed by (namespace, name).
-/

/-- `metav1.OwnerReference`, restricted to the fields the controller reads:
`APIVersion`, `Kind`, `Name` and the `Controller` flag
(`metav1.GetControllerOf` selects the reference whose flag is set). -/
structure OwnerRef where
  apiVersion : String
  kind : String
  name : String
  controller : Bool
deriving Repr, DecidableEq

/-- `MyKindSpec`: `DeploymentName string`, `Replicas *int32` (optional). -/
structure MyKindSpec where
  deploymentName : String
  replicas : Option Int
deriving Repr, DecidableEq

/-- `MyKindStatus`: `ReadyReplicas int32`. -/
structure MyKindStatus where
  readyReplicas : Int
deriving Repr, DecidableEq

/-- The parent resource `MyKind` (ObjectMeta reduced to name/namespace). -/
structure MyKind where
  name : String
  nspace : String
  spec : MyKindSpec
  status : MyKindStatus
deriving Repr, DecidableEq

/-- A container of the pod template: name and image. -/
structure Container where
  name : String
  image : String
deriving Repr, DecidableEq

/-- `apps/v1 DeploymentSpec`, restricted to the fields `buildDeployment`
sets: `Replicas *int32`, the selector match-labels, the template labels and
the template's containers. -/
structure DeploymentSpec where
  replicas : Option Int
  selectorMatchLabels : List (String × String)
  templateLabels : List (String × String)
  containers : List Container
deriving Repr, DecidableEq

/-- `apps/v1 DeploymentStatus`, restricted to `ReadyReplicas int32`. -/
structure DeploymentStatus where
  readyReplicas : Int
deriving Repr, DecidableEq

/-- The managed child resource, an `apps/v1 Deployment`. -/
structure Deployment where
  name : String
  nspace : String
  ownerReferences : List OwnerRef
  spec : DeploymentSpec
  status : DeploymentStatus
deriving Repr, DecidableEq

/-- Modelled from the spec: `GroupVersion.String()` of package
`api/v1beta1` (the scaffolded `groupversion_info.go` is not among the
source files; the group `mygroup.k8s.io` is recorded by the kubebuilder
rbac markers in the controller and the version by the package name).
No claim depends on the exact value, only on `NewControllerRef` and the
index extraction function using the same constant. -/
def groupVersionString : String := "mygroup.k8s.io/v1beta1"

/-- `metav1.NewControllerRef(&myKind, GroupVersion.WithKind("MyKind"))`. -/
def newControllerRef (myKind : MyKind) : OwnerRef :=
  { apiVersion := groupVersionString
    kind := "MyKind"
    name := myKind.name
    controller := true }

/-- `metav1.GetControllerOf`: the owner reference whose controller flag is
set, if any. -/
def getControllerOf (d : Deployment) : Option OwnerRef :=
  d.ownerReferences.find? (fun r => r.controller)

/-- The field-index extraction function registered in `SetupWithManager`
for key `.metadata.controller`: the owning `MyKind`'s name when the
deployment's controller owner reference matches the `MyKind` group,
version and kind, and the empty list otherwise. -/
def deploymentOwnerIndex (d : Deployment) : List String :=
  match getControllerOf d with
  | none => []
  | some owner =>
      if owner.apiVersion != groupVersionString || owner.kind != "MyKind" then []
      else [owner.name]

/-- The remote object store: all parents and all deployments, each keyed by
(namespace, name). -/
structure Store where
  myKinds : List MyKind
  deployments : List Deployment
deriving Repr, DecidableEq

/-- `r.Client.Get` on a `MyKind` key (found / not-found part). -/
def getMyKind (s : Store) (ns n : String) : Option MyKind :=
  s.myKinds.find? (fun m => m.nspace == ns && m.name == n)

/-- `r.Client.Get` on a `Deployment` key (found / not-found part). -/
def getDeployment (s : Store) (ns n : String) : Option Deployment :=
  s.deployments.find? (fun d => d.nspace == ns && d.name == n)

/-- `r.Client.Create` on a deployment. -/
def createDeployment (s : Store) (d : Deployment) : Store :=
  { s with deployments := s.deployments ++ [d] }

/-- `r.Client.Update` on a deployment: replaces the object with the same
key. -/
def updateDeployment (s : Store) (d : Deployment) : Store :=
  { s with deployments :=
      s.deployments.map (fun e =>
        if e.nspace == d.nspace && e.name == d.name then d else e) }

/-- `r.Client.Delete` on a deployment key. -/
def deleteDeployment (s : Store) (ns n : String) : Store :=
  { s with deployments :=
      s.deployments.filter (fun d => !(d.nspace == ns && d.name == n)) }

/-- `r.Client.Status().Update`: persists only the status sub-resource of
the parent with the given key; every other field of the stored object is
kept. -/
def updateMyKindStatus (s : Store) (ns n : String) (ready : Int) : Store :=
  { s with myKinds :=
      s.myKinds.map (fun m =>
        if m.nspace == ns && m.name == n then
          { m with status := { readyReplicas := ready } }
        else m) }

/-- One successful write against the store, as recorded by a pass. -/
inductive Mut
  | deleteD (ns n : String)
  | createD (d : Deployment)
  | updateD (d : Deployment)
  | statusU (ns n : String) (ready : Int)
deriving Repr, DecidableEq

/-- Events recorded through `r.Recorder.Eventf`. -/
inductive Ev
  | created (n : String)
  | scaled (n : String) (r : Int)
  | deleted (n : String)
deriving Repr, DecidableEq

/-- Fault injection for the client calls a pass makes; each flag makes the
corresponding call fail (with a transient store error) for the whole pass. -/
structure Faults where
  parentGetFails : Bool
  listFails : Bool
  deleteFails : Bool
  childGetFails : Bool
  createFails : Bool
  updateFails : Bool
  statusUpdateFails : Bool
deriving Repr, DecidableEq

/-- The fault-free environment: every client call succeeds. -/
def noFaults : Faults := ⟨false, false, false, false, false, false, false⟩

/-- Which client call produced the error a pass returns. -/
inductive ErrK
  | getParent
  | listOwned
  | deleteChild
  | getChild
  | createChild
  | updateChild
deriving Repr, DecidableEq

/-- Outcome of a pass: success, a surfaced error, or the Go panic from
dereferencing a nil `*int32`. -/
inductive Outcome
  | ok
  | err (e : ErrK)
  | nilDeref
deriving Repr, DecidableEq

/-- State threaded through a pass: current store, successful writes so far,
events recorded so far. -/
structure PassSt where
  store : Store
  muts : List Mut
  evs : List Ev
deriving Repr, DecidableEq

/-- Result of a pass. -/
structure PassResult where
  store : Store
  muts : List Mut
  evs : List Ev
  outcome : Outcome
deriving Repr, DecidableEq

/-- `buildDeployment`: the Desired State Builder. Note that
`Spec.Replicas` is the parent's possibly-nil pointer, copied as-is. -/
def buildDeployment (myKind : MyKind) : Deployment :=
  { name := myKind.spec.deploymentName
    nspace := myKind.nspace
    ownerReferences := [newControllerRef myKind]
    spec :=
      { replicas := myKind.spec.replicas
        selectorMatchLabels :=
          [("example-controller.jetstack.io/deployment-name", myKind.spec.deploymentName)]
        templateLabels :=
          [("example-controller.jetstack.io/deployment-name", myKind.spec.deploymentName)]
        containers := [{ name := "nginx", image := "nginx:latest" }] }
    status := { readyReplicas := 0 } }

/-- `expectedReplicas := int32(1); if myKind.Spec.Replicas != nil { ... }`. -/
def expectedReplicas (myKind : MyKind) : Int :=
  match myKind.spec.replicas with
  | none => 1
  | some r => r

/-- The `List` call of `cleanupOwnedResources`: deployments in the parent's
namespace whose `.metadata.controller` index value matches the parent's
name. -/
def listOwnedDeployments (s : Store) (myKind : MyKind) : List Deployment :=
  s.deployments.filter (fun d =>
    d.nspace == myKind.nspace && (deploymentOwnerIndex d).contains myKind.name)

/-- The loop body of `cleanupOwnedResources` over the listed deployments:
skip the deployment whose name matches `spec.deploymentName`, delete every
other one (recording a "Deleted" event), abort on a delete failure. -/
def cleanupLoop (f : Faults) (myKind : MyKind) :
    List Deployment → PassSt → PassSt × Option ErrK
  | [], st => (st, none)
  | d :: rest, st =>
      if d.name == myKind.spec.deploymentName then
        cleanupLoop f myKind rest st
      else if f.deleteFails then (st, some ErrK.deleteChild)
      else
        cleanupLoop f myKind rest
          { store := deleteDeployment st.store d.nspace d.name
            muts := st.muts ++ [Mut.deleteD d.nspace d.name]
            evs := st.evs ++ [Ev.deleted d.name] }

/-- `cleanupOwnedResources`. -/
def cleanupOwnedResources (f : Faults) (st : PassSt) (myKind : MyKind) :
    PassSt × Option ErrK :=
  if f.listFails then (st, some ErrK.listOwned)
  else cleanupLoop f myKind (listOwnedDeployments st.store myKind) st

/-- The part of `Reconcile` after `cleanupOwnedResources` returned nil:
fetch the child, create it when absent, otherwise scale on replica
mismatch, otherwise run Status Sync. The final branch reproduces the
source's `if r.Client.Status().Update(ctx, &myKind); err != nil` line:
the update's return value is discarded, `err` is the (necessarily nil)
deployment-get error, so a failed status update still yields `Outcome.ok`. -/
def afterCleanup (f : Faults) (myKind : MyKind) (st : PassSt) : PassResult :=
  if f.childGetFails then ⟨st.store, st.muts, st.evs, Outcome.err ErrK.getChild⟩
  else
    match getDeployment st.store myKind.nspace myKind.spec.deploymentName with
    | none =>
        if f.createFails then ⟨st.store, st.muts, st.evs, Outcome.err ErrK.createChild⟩
        else
          let deployment := buildDeployment myKind
          ⟨createDeployment st.store deployment,
           st.muts ++ [Mut.createD deployment],
           st.evs ++ [Ev.created deployment.name],
           Outcome.ok⟩
    | some deployment =>
        match deployment.spec.replicas with
        | none => ⟨st.store, st.muts, st.evs, Outcome.nilDeref⟩
        | some current =>
            if current ≠ expectedReplicas myKind then
              if f.updateFails then
                ⟨st.store, st.muts, st.evs, Outcome.err ErrK.updateChild⟩
              else
                let updated :=
                  { deployment with spec :=
                      { deployment.spec with replicas := some (expectedReplicas myKind) } }
                ⟨updateDeployment st.store updated,
                 st.muts ++ [Mut.updateD updated],
                 st.evs ++ [Ev.scaled updated.name (expectedReplicas myKind)],
                 Outcome.ok⟩
            else
              if f.statusUpdateFails then
                ⟨st.store, st.muts, st.evs, Outcome.ok⟩
              else
                ⟨updateMyKindStatus st.store myKind.nspace myKind.name
                   deployment.status.readyReplicas,
                 st.muts ++ [Mut.statusU myKind.nspace myKind.name
                   deployment.status.readyReplicas],
                 st.evs,
                 Outcome.ok⟩

/-- `Reconcile`: fetch the parent (absorbing not-found through
`client.IgnoreNotFound`), run the cleanup pass, then the create / scale /
status-sync logic. -/
def reconcile (f : Faults) (s : Store) (ns n : String) : PassResult :=
  if f.parentGetFails then ⟨s, [], [], Outcome.err ErrK.getParent⟩
  else
    match getMyKind s ns n with
    | none => ⟨s, [], [], Outcome.ok⟩
    | some myKind =>
        match cleanupOwnedResources f ⟨s, [], []⟩ myKind with
        | (st, some e) => ⟨st.store, st.muts, st.evs, Outcome.err e⟩
        | (st, none) => afterCleanup f myKind st

/-- A successful write that is a cleanup deletion. -/
def Mut.isDelete : Mut → Bool
  | .deleteD _ _ => true
  | _ => false

/-- An event recorded by the cleanup pass. -/
def Ev.isDeletedEv : Ev → Bool
  | .deleted _ => true
  | _ => false

/-- Number of corrective (non-cleanup) writes in a trace: creates, scales
and status updates. -/
def nonDeleteCount (ms : List Mut) : Nat :=
  (ms.filter (fun m => !m.isDelete)).length

theorem nonDeleteCount_append (ms ms' : List Mut) :
    nonDeleteCount (ms ++ ms') = nonDeleteCount ms + nonDeleteCount ms' := by
  simp [nonDeleteCount, List.filter_append]

theorem nonDeleteCount_eq_zero {ms : List Mut} :
    nonDeleteCount ms = 0 ↔ ∀ m ∈ ms, m.isDelete = true := by
  simp [nonDeleteCount, List.length_eq_zero, List.filter_eq_nil_iff]

theorem find?_filter_of_imp {α : Type} (p q : α → Bool)
    (h : ∀ x, p x = true → q x = true) :
    ∀ l : List α, (l.filter q).find? p = l.find? p := by
  intro l
  induction l with
  | nil => rfl
  | cons x xs ih =>
      by_cases hq : q x = true
      · rw [List.filter_cons_of_pos hq]
        by_cases hp : p x = true
        · rw [List.find?_cons_of_pos _ hp, List.find?_cons_of_pos _ hp]
        · rw [List.find?_cons_of_neg _ (by simp [hp]),
            List.find?_cons_of_neg _ (by simp [hp]), ih]
      · rw [List.filter_cons_of_neg (by simp [hq])]
        have hp : p x = false := by
          cases hpx : p x with
          | false => rfl
          | true => exact absurd (h x hpx) hq
        rw [ih, List.find?_cons_of_neg _ (by simp [hp])]

theorem find?_map_of_pred {α : Type} (f : α → α) (p : α → Bool)
    (hf : ∀ x, p (f x) = p x) :
    ∀ l : List α, (l.map f).find? p = (l.find? p).map f := by
  intro l
  induction l with
  | nil => rfl
  | cons x xs ih =>
      by_cases hp : p x = true
      · rw [List.map_cons, List.find?_cons_of_pos _ (by rw [hf]; exact hp),
          List.find?_cons_of_pos _ hp]
        rfl
      · rw [List.map_cons,
          List.find?_cons_of_neg _ (by simp [hf x, hp]),
          List.find?_cons_of_neg _ (by simp [hp]), ih]

/-- Deleting one deployment key leaves lookups of any other name intact. -/
theorem getDeployment_delete_ne (s : Store) (ns2 n2 ns n : String)
    (h : n2 ≠ n) :
    getDeployment (deleteDeployment s ns2 n2) ns n = getDeployment s ns n := by
  unfold getDeployment deleteDeployment
  apply find?_filter_of_imp
  intro d hd
  have hn : d.name = n := by
    have := (Bool.and_eq_true _ _).mp hd
    exact eq_of_beq this.2
  simp [hn, h.symm]


theorem cleanupLoop_cons_skip (f : Faults) (mk : MyKind) (d : Deployment)
    (rest : List Deployment) (st : PassSt)
    (h1 : (d.name == mk.spec.deploymentName) = true) :
    cleanupLoop f mk (d :: rest) st = cleanupLoop f mk rest st := by
  simp [cleanupLoop, h1]

theorem cleanupLoop_cons_fail (f : Faults) (mk : MyKind) (d : Deployment)
    (rest : List Deployment) (st : PassSt)
    (h1 : (d.name == mk.spec.deploymentName) = false)
    (h2 : f.deleteFails = true) :
    cleanupLoop f mk (d :: rest) st = (st, some ErrK.deleteChild) := by
  simp [cleanupLoop, h1, h2]

theorem cleanupLoop_cons_del (f : Faults) (mk : MyKind) (d : Deployment)
    (rest : List Deployment) (st : PassSt)
    (h1 : (d.name == mk.spec.deploymentName) = false)
    (h2 : f.deleteFails = false) :
    cleanupLoop f mk (d :: rest) st =
      cleanupLoop f mk rest
        ⟨deleteDeployment st.store d.nspace d.name,
         st.muts ++ [Mut.deleteD d.nspace d.name],
         st.evs ++ [Ev.deleted d.name]⟩ := by
  simp [cleanupLoop, h1, h2]

theorem cleanupLoop_myKinds (f : Faults) (mk : MyKind) :
    ∀ (l : List Deployment) (st : PassSt),
      (cleanupLoop f mk l st).1.store.myKinds = st.store.myKinds := by
  intro l
  induction l with
  | nil => intro st; rfl
  | cons d rest ih =>
      intro st
      cases h1 : (d.name == mk.spec.deploymentName) with
      | true => rw [cleanupLoop_cons_skip f mk d rest st h1]; exact ih st
      | false =>
          cases h2 : f.deleteFails with
          | true => rw [cleanupLoop_cons_fail f mk d rest st h1 h2]
          | false => rw [cleanupLoop_cons_del f mk d rest st h1 h2]; exact ih _

theorem cleanupLoop_getDeployment (f : Faults) (mk : MyKind) (ns2 : String) :
    ∀ (l : List Deployment) (st : PassSt),
      getDeployment (cleanupLoop f mk l st).1.store ns2 mk.spec.deploymentName =
        getDeployment st.store ns2 mk.spec.deploymentName := by
  intro l
  induction l with
  | nil => intro st; rfl
  | cons d rest ih =>
      intro st
      cases h1 : (d.name == mk.spec.deploymentName) with
      | true => rw [cleanupLoop_cons_skip f mk d rest st h1]; exact ih st
      | false =>
          cases h2 : f.deleteFails with
          | true => rw [cleanupLoop_cons_fail f mk d rest st h1 h2]
          | false =>
              rw [cleanupLoop_cons_del f mk d rest st h1 h2, ih]
              exact getDeployment_delete_ne _ _ _ _ _
                (fun he => by simp [he] at h1)

theorem cleanupLoop_nonDelete (f : Faults) (mk : MyKind) :
    ∀ (l : List Deployment) (st : PassSt),
      nonDeleteCount (cleanupLoop f mk l st).1.muts = nonDeleteCount st.muts := by
  intro l
  induction l with
  | nil => intro st; rfl
  | cons d rest ih =>
      intro st
      cases h1 : (d.name == mk.spec.deploymentName) with
      | true => rw [cleanupLoop_cons_skip f mk d rest st h1]; exact ih st
      | false =>
          cases h2 : f.deleteFails with
          | true => rw [cleanupLoop_cons_fail f mk d rest st h1 h2]
          | false =>
              rw [cleanupLoop_cons_del f mk d rest st h1 h2, ih]
              simp [nonDeleteCount_append, nonDeleteCount, Mut.isDelete]

theorem cleanupLoop_muts_all_deletes (f : Faults) (mk : MyKind) :
    ∀ (l : List Deployment) (st : PassSt),
      (∀ m ∈ st.muts, m.isDelete = true) →
      ∀ m ∈ (cleanupLoop f mk l st).1.muts, m.isDelete = true := by
  intro l
  induction l with
  | nil => intro st h; exact h
  | cons d rest ih =>
      intro st h
      cases h1 : (d.name == mk.spec.deploymentName) with
      | true => rw [cleanupLoop_cons_skip f mk d rest st h1]; exact ih st h
      | false =>
          cases h2 : f.deleteFails with
          | true => rw [cleanupLoop_cons_fail f mk d rest st h1 h2]; exact h
          | false =>
              rw [cleanupLoop_cons_del f mk d rest st h1 h2]
              refine ih _ ?_
              intro m hm
              rcases List.mem_append.mp hm with hm | hm
              · exact h m hm
              · simp only [List.mem_singleton] at hm
                simp [hm, Mut.isDelete]

theorem cleanupLoop_evs_all_deleted (f : Faults) (mk : MyKind) :
    ∀ (l : List Deployment) (st : PassSt),
      (∀ e ∈ st.evs, e.isDeletedEv = true) →
      ∀ e ∈ (cleanupLoop f mk l st).1.evs, e.isDeletedEv = true := by
  intro l
  induction l with
  | nil => intro st h; exact h
  | cons d rest ih =>
      intro st h
      cases h1 : (d.name == mk.spec.deploymentName) with
      | true => rw [cleanupLoop_cons_skip f mk d rest st h1]; exact ih st h
      | false =>
          cases h2 : f.deleteFails with
          | true => rw [cleanupLoop_cons_fail f mk d rest st h1 h2]; exact h
          | false =>
              rw [cleanupLoop_cons_del f mk d rest st h1 h2]
              refine ih _ ?_
              intro e he
              rcases List.mem_append.mp he with he | he
              · exact h e he
              · simp only [List.mem_singleton] at he
                simp [he, Ev.isDeletedEv]

theorem cleanupLoop_ok (f : Faults) (mk : MyKind) (hdel : f.deleteFails = false) :
    ∀ (l : List Deployment) (st : PassSt), (cleanupLoop f mk l st).2 = none := by
  intro l
  induction l with
  | nil => intro st; rfl
  | cons d rest ih =>
      intro st
      cases h1 : (d.name == mk.spec.deploymentName) with
      | true => rw [cleanupLoop_cons_skip f mk d rest st h1]; exact ih st
      | false => rw [cleanupLoop_cons_del f mk d rest st h1 hdel]; exact ih _

theorem cleanupLoop_noop (f : Faults) (mk : MyKind) :
    ∀ (l : List Deployment) (st : PassSt),
      (∀ d ∈ l, (d.name == mk.spec.deploymentName) = true) →
      cleanupLoop f mk l st = (st, none) := by
  intro l
  induction l with
  | nil => intro st _; rfl
  | cons d rest ih =>
      intro st h
      rw [cleanupLoop_cons_skip f mk d rest st (h d (by simp))]
      exact ih st (fun e he => h e (by simp [he]))

theorem cleanupLoop_deployments_subset (f : Faults) (mk : MyKind) :
    ∀ (l : List Deployment) (st : PassSt) (d : Deployment),
      d ∈ (cleanupLoop f mk l st).1.store.deployments →
      d ∈ st.store.deployments := by
  intro l
  induction l with
  | nil => intro st d h; exact h
  | cons e rest ih =>
      intro st d h
      cases h1 : (e.name == mk.spec.deploymentName) with
      | true =>
          rw [cleanupLoop_cons_skip f mk e rest st h1] at h
          exact ih st d h
      | false =>
          cases h2 : f.deleteFails with
          | true => rw [cleanupLoop_cons_fail f mk e rest st h1 h2] at h; exact h
          | false =>
              rw [cleanupLoop_cons_del f mk e rest st h1 h2] at h
              have := ih _ d h
              simp only [deleteDeployment] at this
              exact List.mem_of_mem_filter this

theorem cleanupOwned_ok (f : Faults) (st : PassSt) (mk : MyKind)
    (hlf : f.listFails = false) (hdf : f.deleteFails = false) :
    (cleanupOwnedResources f st mk).2 = none := by
  unfold cleanupOwnedResources
  rw [if_neg (by simp [hlf])]
  exact cleanupLoop_ok f mk hdf _ _

theorem cleanupOwned_noop (f : Faults) (st : PassSt) (mk : MyKind)
    (hlf : f.listFails = false)
    (h : ∀ d ∈ listOwnedDeployments st.store mk,
      (d.name == mk.spec.deploymentName) = true) :
    cleanupOwnedResources f st mk = (st, none) := by
  unfold cleanupOwnedResources
  rw [if_neg (by simp [hlf])]
  exact cleanupLoop_noop f mk _ st h

theorem reconcile_eq_afterCleanup (f : Faults) (s : Store) (ns n : String)
    (mk : MyKind)
    (hpf : f.parentGetFails = false) (hlf : f.listFails = false)
    (hdf : f.deleteFails = false)
    (hp : getMyKind s ns n = some mk) :
    reconcile f s ns n =
      afterCleanup f mk (cleanupOwnedResources f ⟨s, [], []⟩ mk).1 := by
  have hok := cleanupOwned_ok f ⟨s, [], []⟩ mk hlf hdf
  rcases hc : cleanupOwnedResources f ⟨s, [], []⟩ mk with ⟨st, oe⟩
  rw [hc] at hok
  simp only at hok
  subst hok
  simp [reconcile, hpf, hp, hc]

theorem afterCleanup_create (f : Faults) (mk : MyKind) (st : PassSt)
    (hcg : f.childGetFails = false)
    (hd : getDeployment st.store mk.nspace mk.spec.deploymentName = none)
    (hcf : f.createFails = false) :
    afterCleanup f mk st =
      ⟨createDeployment st.store (buildDeployment mk),
       st.muts ++ [Mut.createD (buildDeployment mk)],
       st.evs ++ [Ev.created mk.spec.deploymentName],
       Outcome.ok⟩ := by
  unfold afterCleanup
  rw [if_neg (by simp [hcg]), hd]
  simp [hcf, buildDeployment]

theorem afterCleanup_nilDeref (f : Faults) (mk : MyKind) (st : PassSt)
    (d : Deployment)
    (hcg : f.childGetFails = false)
    (hd : getDeployment st.store mk.nspace mk.spec.deploymentName = some d)
    (hnil : d.spec.replicas = none) :
    afterCleanup f mk st = ⟨st.store, st.muts, st.evs, Outcome.nilDeref⟩ := by
  simp [afterCleanup, hcg, hd, hnil]

theorem afterCleanup_scale (f : Faults) (mk : MyKind) (st : PassSt)
    (d : Deployment) (current : Int)
    (hcg : f.childGetFails = false)
    (hd : getDeployment st.store mk.nspace mk.spec.deploymentName = some d)
    (hcur : d.spec.replicas = some current)
    (hne : current ≠ expectedReplicas mk)
    (huf : f.updateFails = false) :
    afterCleanup f mk st =
      ⟨updateDeployment st.store
         { d with spec := { d.spec with replicas := some (expectedReplicas mk) } },
       st.muts ++ [Mut.updateD
         { d with spec := { d.spec with replicas := some (expectedReplicas mk) } }],
       st.evs ++ [Ev.scaled d.name (expectedReplicas mk)],
       Outcome.ok⟩ := by
  simp [afterCleanup, hcg, hd, hcur, hne, huf]

theorem afterCleanup_statusSync (f : Faults) (mk : MyKind) (st : PassSt)
    (d : Deployment)
    (hcg : f.childGetFails = false)
    (hd : getDeployment st.store mk.nspace mk.spec.deploymentName = some d)
    (hrepl : d.spec.replicas = some (expectedReplicas mk))
    (hsf : f.statusUpdateFails = false) :
    afterCleanup f mk st =
      ⟨updateMyKindStatus st.store mk.nspace mk.name d.status.readyReplicas,
       st.muts ++ [Mut.statusU mk.nspace mk.name d.status.readyReplicas],
       st.evs, Outcome.ok⟩ := by
  simp [afterCleanup, hcg, hd, hrepl, hsf]

theorem afterCleanup_statusSwallow (f : Faults) (mk : MyKind) (st : PassSt)
    (d : Deployment)
    (hcg : f.childGetFails = false)
    (hd : getDeployment st.store mk.nspace mk.spec.deploymentName = some d)
    (hrepl : d.spec.replicas = some (expectedReplicas mk))
    (hsf : f.statusUpdateFails = true) :
    afterCleanup f mk st = ⟨st.store, st.muts, st.evs, Outcome.ok⟩ := by
  simp [afterCleanup, hcg, hd, hrepl, hsf]

theorem getMyKind_keys {s : Store} {ns n : String} {p : MyKind}
    (hp : getMyKind s ns n = some p) : p.nspace = ns ∧ p.name = n := by
  unfold getMyKind at hp
  have := List.find?_some hp
  have h2 := (Bool.and_eq_true _ _).mp this
  exact ⟨eq_of_beq h2.1, eq_of_beq h2.2⟩

theorem getMyKind_mem {s : Store} {ns n : String} {p : MyKind}
    (hp : getMyKind s ns n = some p) : p ∈ s.myKinds := by
  unfold getMyKind at hp
  exact List.mem_of_find?_eq_some hp

theorem getDeployment_keys {s : Store} {ns n : String} {d : Deployment}
    (hd : getDeployment s ns n = some d) : d.nspace = ns ∧ d.name = n := by
  unfold getDeployment at hd
  have := List.find?_some hd
  have h2 := (Bool.and_eq_true _ _).mp this
  exact ⟨eq_of_beq h2.1, eq_of_beq h2.2⟩

theorem getDeployment_mem {s : Store} {ns n : String} {d : Deployment}
    (hd : getDeployment s ns n = some d) : d ∈ s.deployments := by
  unfold getDeployment at hd
  exact List.mem_of_find?_eq_some hd

theorem getMyKind_updateStatus (s : Store) (ns n : String) (ready : Int)
    {p : MyKind} (hp : getMyKind s ns n = some p) :
    getMyKind (updateMyKindStatus s ns n ready) ns n =
      some { p with status := { readyReplicas := ready } } := by
  unfold getMyKind at hp ⊢
  unfold updateMyKindStatus
  rw [find?_map_of_pred]
  · rw [hp]
    have hpp := List.find?_some hp
    simp only [Option.map_some']
    rw [if_pos hpp]
  · intro m
    by_cases hm : (m.nspace == ns && m.name == n) = true
    · rw [if_pos hm]
    · rw [if_neg (by simp [hm])]

theorem getDeployment_updateDeployment (s : Store) (ns n : String)
    (u : Deployment) (hns : u.nspace = ns) (hn : u.name = n)
    {d : Deployment} (hd : getDeployment s ns n = some d) :
    getDeployment (updateDeployment s u) ns n = some u := by
  subst hns hn
  unfold getDeployment at hd ⊢
  unfold updateDeployment
  rw [find?_map_of_pred]
  · rw [hd]
    have hpd := List.find?_some hd
    simp only [Option.map_some']
    rw [if_pos hpd]
  · intro e
    by_cases he : (e.nspace == u.nspace && e.name == u.name) = true
    · rw [if_pos he, he]
      simp
    · rw [if_neg (by simp [he])]

theorem updateMyKindStatus_self (s : Store) (ns n : String) (ready : Int)
    (p : MyKind)
    (hdup : ∀ m ∈ s.myKinds, (m.nspace == ns && m.name == n) = true → m = p)
    (hready : p.status.readyReplicas = ready) :
    updateMyKindStatus s ns n ready = s := by
  have hmap : s.myKinds.map (fun m =>
      if m.nspace == ns && m.name == n then
        { m with status := { readyReplicas := ready } }
      else m) = s.myKinds := by
    have hcongr : ∀ m ∈ s.myKinds,
        (if m.nspace == ns && m.name == n then
          ({ m with status := { readyReplicas := ready } } : MyKind)
        else m) = m := by
      intro m hm
      by_cases hc : (m.nspace == ns && m.name == n) = true
      · rw [if_pos hc, hdup m hm hc, ← hready]
      · rw [if_neg (by simp [hc])]
    calc s.myKinds.map _ = s.myKinds.map id := List.map_congr_left hcongr
      _ = s.myKinds := List.map_id _
  unfold updateMyKindStatus
  rw [hmap]

/-- Replay one recorded write against a store. -/
def applyMut (s : Store) : Mut → Store
  | .deleteD ns n => deleteDeployment s ns n
  | .createD d => createDeployment s d
  | .updateD d => updateDeployment s d
  | .statusU ns n ready => updateMyKindStatus s ns n ready

/-- All stores a pass visits while applying its writes in order, the
initial store included. -/
def statesAlong (s : Store) : List Mut → List Store
  | [] => [s]
  | m :: rest => s :: statesAlong (applyMut s m) rest

/-- A deployment with the given key is live in the store. -/
def deplLive (s : Store) (ns n : String) : Bool :=
  (getDeployment s ns n).isSome

/-- Concrete rename scenario: the parent wants child "b" while its stale
child "a" is still attributed to it. -/
def renameParent : MyKind := ⟨"p", "ns", ⟨"b", some 2⟩, ⟨0⟩⟩

def staleChildA : Deployment :=
  ⟨"a", "ns", [newControllerRef renameParent], ⟨some 2, [], [], []⟩, ⟨0⟩⟩

def renameStore : Store := ⟨[renameParent], [staleChildA]⟩

/-- Concrete converged scenario: child "c" exists, matches the parent's
replica count, and the parent status already equals the child's ready
count. -/
def convergedParent : MyKind := ⟨"p", "ns", ⟨"c", some 2⟩, ⟨1⟩⟩

def convergedChild : Deployment :=
  ⟨"c", "ns", [newControllerRef convergedParent], ⟨some 2, [], [], []⟩, ⟨1⟩⟩

def convergedStore : Store := ⟨[convergedParent], [convergedChild]⟩

/-- Concrete not-yet-converged scenario for the idempotence claim: the
parent wants child "c" with one replica, no child exists yet, and the
parent carries a stale status value. -/
def c5Parent : MyKind := ⟨"p", "ns", ⟨"c", some 1⟩, ⟨5⟩⟩

def c5Store : Store := ⟨[c5Parent], []⟩

/-- Concrete parent with `spec.replicas` absent. -/
def noReplicasParent : MyKind := ⟨"p", "ns", ⟨"c", none⟩, ⟨0⟩⟩

/-- Store in which the child created for `noReplicasParent` (replica
pointer copied, hence nil) is already live. -/
def nilReplicaStore : Store :=
  ⟨[noReplicasParent], [buildDeployment noReplicasParent]⟩

/-- Concrete drift scenario: the child exists but carries 7 replicas while
the parent wants 3. -/
def driftParent : MyKind := ⟨"p", "ns", ⟨"c", some 3⟩, ⟨0⟩⟩

def driftChild : Deployment :=
  ⟨"c", "ns", [newControllerRef driftParent], ⟨some 7, [], [], []⟩, ⟨0⟩⟩

def driftStore : Store := ⟨[driftParent], [driftChild]⟩

/-- A deployment controlled by an unrelated kind. -/
def foreignChild : Deployment :=
  ⟨"x", "ns", [⟨"apps/v1", "ReplicaSet", "rs", true⟩], ⟨none, [], [], []⟩, ⟨0⟩⟩

/-- A deployment with no controller owner reference at all. -/
def orphanChild : Deployment := ⟨"y", "ns", [], ⟨none, [], [], []⟩, ⟨0⟩⟩

theorem cleanupOwned_getDeployment (f : Faults) (mk : MyKind) (st : PassSt)
    (ns2 : String) :
    getDeployment (cleanupOwnedResources f st mk).1.store ns2
        mk.spec.deploymentName =
      getDeployment st.store ns2 mk.spec.deploymentName := by
  unfold cleanupOwnedResources
  by_cases h : f.listFails = true
  · rw [if_pos h]
  · rw [if_neg h]
    exact cleanupLoop_getDeployment f mk ns2 _ st

theorem cleanupOwned_myKinds (f : Faults) (mk : MyKind) (st : PassSt) :
    (cleanupOwnedResources f st mk).1.store.myKinds = st.store.myKinds := by
  unfold cleanupOwnedResources
  by_cases h : f.listFails = true
  · rw [if_pos h]
  · rw [if_neg h]
    exact cleanupLoop_myKinds f mk _ st

theorem cleanupOwned_nonDelete (f : Faults) (mk : MyKind) (st : PassSt) :
    nonDeleteCount (cleanupOwnedResources f st mk).1.muts =
      nonDeleteCount st.muts := by
  unfold cleanupOwnedResources
  by_cases h : f.listFails = true
  · rw [if_pos h]
  · rw [if_neg h]
    exact cleanupLoop_nonDelete f mk _ st

theorem cleanupOwned_muts_all_deletes (f : Faults) (mk : MyKind) (st : PassSt)
    (h0 : ∀ m ∈ st.muts, m.isDelete = true) :
    ∀ m ∈ (cleanupOwnedResources f st mk).1.muts, m.isDelete = true := by
  unfold cleanupOwnedResources
  by_cases h : f.listFails = true
  · rw [if_pos h]; exact h0
  · rw [if_neg h]
    exact cleanupLoop_muts_all_deletes f mk _ st h0

theorem cleanupOwned_evs_all_deleted (f : Faults) (mk : MyKind) (st : PassSt)
    (h0 : ∀ e ∈ st.evs, e.isDeletedEv = true) :
    ∀ e ∈ (cleanupOwnedResources f st mk).1.evs, e.isDeletedEv = true := by
  unfold cleanupOwnedResources
  by_cases h : f.listFails = true
  · rw [if_pos h]; exact h0
  · rw [if_neg h]
    exact cleanupLoop_evs_all_deleted f mk _ st h0

theorem cleanupOwned_deployments_subset (f : Faults) (mk : MyKind) (st : PassSt) :
    ∀ d, d ∈ (cleanupOwnedResources f st mk).1.store.deployments →
      d ∈ st.store.deployments := by
  unfold cleanupOwnedResources
  by_cases h : f.listFails = true
  · rw [if_pos h]; exact fun d hd => hd
  · rw [if_neg h]
    exact fun d hd => cleanupLoop_deployments_subset f mk _ st d hd

/-- C7: reconciling a key whose parent does not exist returns success with
zero mutations (the code absorbs the not-found error through
`client.IgnoreNotFound`), while any other failure of the parent fetch is
returned to the caller as an error. -/
theorem c7_missing_parent_tolerance (f g : Faults) (s : Store) (ns n : String)
    (hf : f.parentGetFails = false)
    (hmiss : getMyKind s ns n = none)
    (hg : g.parentGetFails = true) :
    reconcile f s ns n = ⟨s, [], [], Outcome.ok⟩ ∧
    reconcile g s ns n = ⟨s, [], [], Outcome.err ErrK.getParent⟩ := by
  constructor
  · simp [reconcile, hf, hmiss]
  · simp [reconcile, hg]

theorem c7_missing_parent_tolerance_witness :
    reconcile noFaults ⟨[], []⟩ "ns" "p" = ⟨⟨[], []⟩, [], [], Outcome.ok⟩ ∧
    reconcile ⟨true, false, false, false, false, false, false⟩ ⟨[], []⟩ "ns" "p" =
      ⟨⟨[], []⟩, [], [], Outcome.err ErrK.getParent⟩ :=
  c7_missing_parent_tolerance noFaults
    ⟨true, false, false, false, false, false, false⟩ ⟨[], []⟩ "ns" "p" rfl rfl rfl

/-- C4 counterexample: for a parent whose `spec.replicas` is absent,
`buildDeployment` returns a child whose replica count is absent as well,
not the claimed fixed default of one. -/
theorem c4_default_not_applied_cex :
    noReplicasParent.spec.replicas = none ∧
    (buildDeployment noReplicasParent).spec.replicas ≠ some 1 ∧
    (buildDeployment noReplicasParent).spec.replicas = none := by
  decide

/-- C4 (amended): `buildDeployment` returns a child whose name equals
`spec.deploymentName`, whose namespace equals the parent's namespace, and
whose replica count is `spec.replicas` copied as-is — equal to
`spec.replicas` when present, but absent (not the default of one) when
`spec.replicas` is absent; the defaulting to one instance is not performed
by `buildDeployment`. -/
theorem c4_buildDeployment_fields (mk : MyKind) :
    (buildDeployment mk).name = mk.spec.deploymentName ∧
    (buildDeployment mk).nspace = mk.nspace ∧
    (buildDeployment mk).spec.replicas = mk.spec.replicas :=
  ⟨rfl, rfl, rfl⟩

/-- C9: the ownership-index extraction function maps a deployment to its
owning parent's name exactly when the deployment has a controller owner
reference whose API version and kind match the `MyKind` type; with no
controller owner, or an owner of any other kind or API version, it yields
nothing, excluding the deployment from the index. -/
theorem c9_owner_index_extraction (d : Deployment) :
    (getControllerOf d = none → deploymentOwnerIndex d = []) ∧
    (∀ o, getControllerOf d = some o →
      ((o.apiVersion = groupVersionString ∧ o.kind = "MyKind") →
        deploymentOwnerIndex d = [o.name]) ∧
      ((o.apiVersion ≠ groupVersionString ∨ o.kind ≠ "MyKind") →
        deploymentOwnerIndex d = [])) := by
  constructor
  · intro h
    simp [deploymentOwnerIndex, h]
  · intro o ho
    constructor
    · rintro ⟨h1, h2⟩
      simp [deploymentOwnerIndex, ho, h1, h2]
    · intro h
      rcases h with h | h
      · simp [deploymentOwnerIndex, ho, bne_iff_ne, h]
      · simp [deploymentOwnerIndex, ho, bne_iff_ne, h]

theorem c9_owner_index_extraction_witness :
    deploymentOwnerIndex staleChildA = ["p"] ∧
    deploymentOwnerIndex foreignChild = [] ∧
    deploymentOwnerIndex orphanChild = [] :=
  ⟨((c9_owner_index_extraction staleChildA).2
      (newControllerRef renameParent) rfl).1 ⟨rfl, rfl⟩,
   ((c9_owner_index_extraction foreignChild).2
      ⟨"apps/v1", "ReplicaSet", "rs", true⟩ rfl).2 (Or.inr (by decide)),
   (c9_owner_index_extraction orphanChild).1 rfl⟩

/-- C1 (code bug): the claim — backed by the spec's contract 4.5 — demands
that a failing parent-status update be returned to the caller. In the
code, `if r.Client.Status().Update(ctx, &myKind); err != nil` discards the
update's return value, so on the status-sync path a failing status update
leaves the store untouched and the pass still returns success with no
error: the failure is silently absorbed. -/
theorem c1_status_update_failure_swallowed (s : Store) (ns n : String)
    (p : MyKind) (d : Deployment) (f : Faults)
    (hf : f = { noFaults with statusUpdateFails := true })
    (hp : getMyKind s ns n = some p)
    (hstale : ∀ e ∈ listOwnedDeployments s p,
      (e.name == p.spec.deploymentName) = true)
    (hd : getDeployment s p.nspace p.spec.deploymentName = some d)
    (hrepl : d.spec.replicas = some (expectedReplicas p)) :
    reconcile f s ns n = ⟨s, [], [], Outcome.ok⟩ := by
  subst hf
  rw [reconcile_eq_afterCleanup _ _ _ _ p rfl rfl rfl hp,
      cleanupOwned_noop _ _ _ rfl hstale]
  exact afterCleanup_statusSwallow _ _ _ d rfl hd hrepl rfl

theorem c1_status_update_failure_swallowed_witness :
    reconcile { noFaults with statusUpdateFails := true } convergedStore
        "ns" "p" =
      ⟨convergedStore, [], [], Outcome.ok⟩ :=
  c1_status_update_failure_swallowed convergedStore "ns" "p" convergedParent
    convergedChild _ rfl (by decide) (by decide) (by decide) (by decide)

theorem afterCleanup_nonDelete (f : Faults) (mk : MyKind) (st : PassSt) :
    nonDeleteCount (afterCleanup f mk st).muts ≤ nonDeleteCount st.muts + 1 := by
  unfold afterCleanup
  split
  · exact Nat.le_succ_of_le (Nat.le_refl _)
  · split
    · split
      · exact Nat.le_succ_of_le (Nat.le_refl _)
      · simp [nonDeleteCount_append, nonDeleteCount, Mut.isDelete]
    · split
      · exact Nat.le_succ_of_le (Nat.le_refl _)
      · split
        · split
          · exact Nat.le_succ_of_le (Nat.le_refl _)
          · simp [nonDeleteCount_append, nonDeleteCount, Mut.isDelete]
        · split
          · exact Nat.le_succ_of_le (Nat.le_refl _)
          · simp [nonDeleteCount_append, nonDeleteCount, Mut.isDelete]

theorem reconcile_nonDelete_le_one (f : Faults) (s : Store) (ns n : String) :
    nonDeleteCount (reconcile f s ns n).muts ≤ 1 := by
  by_cases hpf : f.parentGetFails = true
  · simp [reconcile, hpf, nonDeleteCount]
  · cases hgm : getMyKind s ns n with
    | none => simp [reconcile, hpf, hgm, nonDeleteCount]
    | some mk =>
        rcases hc : cleanupOwnedResources f ⟨s, [], []⟩ mk with ⟨st, oe⟩
        have hst : nonDeleteCount st.muts = 0 := by
          have h2 := cleanupOwned_nonDelete f mk ⟨s, [], []⟩
          rw [hc] at h2
          simpa [nonDeleteCount] using h2
        cases oe with
        | some e =>
            have hr : reconcile f s ns n = ⟨st.store, st.muts, st.evs, Outcome.err e⟩ := by
              simp [reconcile, hpf, hgm, hc]
            rw [hr, hst]
            exact Nat.zero_le 1
        | none =>
            have hr : reconcile f s ns n = afterCleanup f mk st := by
              simp [reconcile, hpf, hgm, hc]
            rw [hr]
            have h3 := afterCleanup_nonDelete f mk st
            rw [hst] at h3
            simpa using h3

/-- C2 counterexample: one successful pass of the rename scenario both
deletes the stale child "a" and creates the new child "b" — a cleanup
deletion alongside a create in the same invocation. -/
theorem c2_delete_and_create_same_pass_cex :
    (reconcile noFaults renameStore "ns" "p").outcome = Outcome.ok ∧
    (reconcile noFaults renameStore "ns" "p").muts =
      [Mut.deleteD "ns" "a", Mut.createD (buildDeployment renameParent)] := by
  decide

/-- C2 (amended): every successful reconcile pass performs at most one
corrective write among child-create, child-scale and parent-status-update;
cleanup deletions, however, are not exclusive with that write and may
occur in the same pass (before it). -/
theorem c2_at_most_one_corrective_write (f : Faults) (s : Store)
    (ns n : String)
    (_hok : (reconcile f s ns n).outcome = Outcome.ok) :
    nonDeleteCount (reconcile f s ns n).muts ≤ 1 :=
  reconcile_nonDelete_le_one f s ns n

theorem c2_at_most_one_corrective_write_witness :
    (reconcile noFaults driftStore "ns" "p").outcome = Outcome.ok ∧
    nonDeleteCount (reconcile noFaults driftStore "ns" "p").muts ≤ 1 :=
  ⟨by decide,
   c2_at_most_one_corrective_write noFaults driftStore "ns" "p" (by decide)⟩

/-- C3 counterexample: in the rename scenario, the single pass that
deletes the stale child "a" also creates the new child "b" — the creation
does not wait for a subsequent pass. -/
theorem c3_same_pass_create_cex :
    Mut.deleteD "ns" "a" ∈ (reconcile noFaults renameStore "ns" "p").muts ∧
    Mut.createD (buildDeployment renameParent) ∈
      (reconcile noFaults renameStore "ns" "p").muts := by
  decide

/-- C3 (amended): when `spec.deploymentName` is renamed from A to B while
the stale child A is still attributed to the parent, the very pass that
deletes A also creates B — with the deletion strictly preceding the
creation in the pass's write sequence — and in no store visited along the
pass (initial, after the delete, after the create) are A and B live at
once. -/
theorem c3_rename_delete_before_create
    (ns pn A B : String) (rp rA : Option Int)
    (sl tl : List (String × String)) (cs : List Container) (rdyP rdyA : Int)
    (hAB : A ≠ B) :
    let p : MyKind := ⟨pn, ns, ⟨B, rp⟩, ⟨rdyP⟩⟩
    let dA : Deployment :=
      ⟨A, ns, [⟨groupVersionString, "MyKind", pn, true⟩], ⟨rA, sl, tl, cs⟩,
       ⟨rdyA⟩⟩
    let s : Store := ⟨[p], [dA]⟩
    reconcile noFaults s ns pn =
      ⟨⟨[p], [buildDeployment p]⟩,
       [Mut.deleteD ns A, Mut.createD (buildDeployment p)],
       [Ev.deleted A, Ev.created B], Outcome.ok⟩ ∧
    ∀ s2 ∈ statesAlong s [Mut.deleteD ns A, Mut.createD (buildDeployment p)],
      ¬(deplLive s2 ns A = true ∧ deplLive s2 ns B = true) := by
  intro p dA s
  have hABb : (A == B) = false := by
    cases h : A == B with
    | false => rfl
    | true => exact absurd (eq_of_beq h) hAB
  have hBAb : (B == A) = false := by
    cases h : B == A with
    | false => rfl
    | true => exact absurd (eq_of_beq h) (Ne.symm hAB)
  have hp : getMyKind s ns pn = some p := by
    simp [getMyKind, s, p]
  constructor
  · rw [reconcile_eq_afterCleanup _ _ _ _ p rfl rfl rfl hp]
    have hlist : listOwnedDeployments s p = [dA] := by
      simp [listOwnedDeployments, deploymentOwnerIndex, getControllerOf, s,
        dA, p]
    have hcl : cleanupOwnedResources noFaults ⟨s, [], []⟩ p =
        (⟨⟨[p], []⟩, [Mut.deleteD ns A], [Ev.deleted A]⟩, none) := by
      unfold cleanupOwnedResources
      rw [if_neg (by decide)]
      simp only [hlist]
      rw [cleanupLoop_cons_del noFaults p dA [] ⟨s, [], []⟩ hABb rfl]
      simp [cleanupLoop, deleteDeployment, s, dA]
    rw [hcl]
    exact afterCleanup_create noFaults p
      ⟨⟨[p], []⟩, [Mut.deleteD ns A], [Ev.deleted A]⟩ rfl rfl rfl
  · intro s2 hs2
    simp only [statesAlong, applyMut, List.mem_cons,
      List.not_mem_nil, or_false] at hs2
    rcases hs2 with h | h | h
    · subst h
      simp [deplLive, getDeployment, s, dA, hABb]
    · subst h
      simp [deplLive, getDeployment, deleteDeployment, s, dA]
    · subst h
      simp [deplLive, getDeployment, deleteDeployment, createDeployment,
        buildDeployment, s, dA, p, hBAb]

theorem c3_rename_delete_before_create_witness :
    reconcile noFaults renameStore "ns" "p" =
      ⟨⟨[renameParent], [buildDeployment renameParent]⟩,
       [Mut.deleteD "ns" "a", Mut.createD (buildDeployment renameParent)],
       [Ev.deleted "a", Ev.created "b"], Outcome.ok⟩ ∧
    ∀ s2 ∈ statesAlong renameStore
        [Mut.deleteD "ns" "a", Mut.createD (buildDeployment renameParent)],
      ¬(deplLive s2 "ns" "a" = true ∧ deplLive s2 "ns" "b" = true) :=
  c3_rename_delete_before_create "ns" "p" "a" "b" (some 2) (some 2)
    [] [] [] 0 0 (by decide)

/-- C6: when the child named `spec.deploymentName` exists and its replica
count differs from the expected count (`spec.replicas`, or 1 if absent),
the pass updates the child's replica count to the expected value, records
a "Scaled" event, and returns without running Status Sync (no status write,
parents untouched); the drifted replica count is corrected in the
resulting store. -/
theorem c6_scale_on_drift (s : Store) (ns n : String) (p : MyKind)
    (d : Deployment) (current : Int)
    (hp : getMyKind s ns n = some p)
    (hd : getDeployment s p.nspace p.spec.deploymentName = some d)
    (hcur : d.spec.replicas = some current)
    (hne : current ≠ expectedReplicas p) :
    (reconcile noFaults s ns n).outcome = Outcome.ok ∧
    (∃ ds, (reconcile noFaults s ns n).muts =
        ds ++ [Mut.updateD
          { d with spec :=
              { d.spec with replicas := some (expectedReplicas p) } }] ∧
      ∀ m ∈ ds, m.isDelete = true) ∧
    (∃ es, (reconcile noFaults s ns n).evs =
        es ++ [Ev.scaled d.name (expectedReplicas p)] ∧
      ∀ e ∈ es, e.isDeletedEv = true) ∧
    (reconcile noFaults s ns n).store.myKinds = s.myKinds ∧
    getDeployment (reconcile noFaults s ns n).store p.nspace
        p.spec.deploymentName =
      some { d with spec :=
        { d.spec with replicas := some (expectedReplicas p) } } := by
  have hre := reconcile_eq_afterCleanup noFaults s ns n p rfl rfl rfl hp
  have hd2 : getDeployment
      (cleanupOwnedResources noFaults ⟨s, [], []⟩ p).1.store
      p.nspace p.spec.deploymentName = some d := by
    rw [cleanupOwned_getDeployment]
    exact hd
  have hsc := afterCleanup_scale noFaults p
    (cleanupOwnedResources noFaults ⟨s, [], []⟩ p).1 d current rfl hd2 hcur
    hne rfl
  have hfull := hre.trans hsc
  refine ⟨?_, ?_, ?_, ?_, ?_⟩
  · rw [hfull]
  · refine ⟨(cleanupOwnedResources noFaults ⟨s, [], []⟩ p).1.muts, ?_, ?_⟩
    · rw [hfull]
    · exact cleanupOwned_muts_all_deletes noFaults p ⟨s, [], []⟩
        (fun m hm => absurd hm (List.not_mem_nil m))
  · refine ⟨(cleanupOwnedResources noFaults ⟨s, [], []⟩ p).1.evs, ?_, ?_⟩
    · rw [hfull]
    · exact cleanupOwned_evs_all_deleted noFaults p ⟨s, [], []⟩
        (fun e he => absurd he (List.not_mem_nil e))
  · rw [hfull]
    exact cleanupOwned_myKinds noFaults p ⟨s, [], []⟩
  · rw [hfull]
    exact getDeployment_updateDeployment _ _ _ _
      (getDeployment_keys hd).1 (getDeployment_keys hd).2 hd2

theorem c6_scale_on_drift_witness :
    (reconcile noFaults driftStore "ns" "p").outcome = Outcome.ok ∧
    getDeployment (reconcile noFaults driftStore "ns" "p").store "ns" "c" =
      some ⟨"c", "ns", [newControllerRef driftParent], ⟨some 3, [], [], []⟩,
        ⟨0⟩⟩ :=
  have h := c6_scale_on_drift driftStore "ns" "p" driftParent driftChild 7
    (by decide) (by decide) rfl (by decide)
  ⟨h.1, h.2.2.2.2⟩

/-- C8: on the status-sync path the pass writes the child's observed
ready-replica count into the parent's `status.readyReplicas` and persists
only the status sub-resource: the deployments are untouched, the one
recorded write is the status update, and the stored parent afterwards
differs from the old one only in its status — spec, name and namespace
are unchanged. -/
theorem c8_status_sync_frame (s : Store) (ns n : String) (p : MyKind)
    (d : Deployment)
    (hp : getMyKind s ns n = some p)
    (hstale : ∀ e ∈ listOwnedDeployments s p,
      (e.name == p.spec.deploymentName) = true)
    (hd : getDeployment s p.nspace p.spec.deploymentName = some d)
    (hrepl : d.spec.replicas = some (expectedReplicas p)) :
    reconcile noFaults s ns n =
      ⟨updateMyKindStatus s p.nspace p.name d.status.readyReplicas,
       [Mut.statusU p.nspace p.name d.status.readyReplicas], [],
       Outcome.ok⟩ ∧
    (reconcile noFaults s ns n).store.deployments = s.deployments ∧
    getMyKind (reconcile noFaults s ns n).store ns n =
      some { p with status := { readyReplicas := d.status.readyReplicas } } ∧
    ({ p with status := { readyReplicas := d.status.readyReplicas } }
      : MyKind).spec = p.spec ∧
    ({ p with status := { readyReplicas := d.status.readyReplicas } }
      : MyKind).name = p.name ∧
    ({ p with status := { readyReplicas := d.status.readyReplicas } }
      : MyKind).nspace = p.nspace := by
  have hre := reconcile_eq_afterCleanup noFaults s ns n p rfl rfl rfl hp
  rw [cleanupOwned_noop noFaults ⟨s, [], []⟩ p rfl hstale] at hre
  have hss := afterCleanup_statusSync noFaults p ⟨s, [], []⟩ d rfl hd hrepl rfl
  have hfull := hre.trans hss
  obtain ⟨hns, hn⟩ := getMyKind_keys hp
  subst hns
  subst hn
  refine ⟨hfull, ?_, ?_, rfl, rfl, rfl⟩
  · rw [hfull]
    rfl
  · rw [hfull]
    exact getMyKind_updateStatus s p.nspace p.name d.status.readyReplicas hp

theorem c8_status_sync_frame_witness :
    reconcile noFaults convergedStore "ns" "p" =
      ⟨updateMyKindStatus convergedStore "ns" "p" 1,
       [Mut.statusU "ns" "p" 1], [], Outcome.ok⟩ ∧
    (reconcile noFaults convergedStore "ns" "p").store.deployments =
      convergedStore.deployments ∧
    getMyKind (reconcile noFaults convergedStore "ns" "p").store "ns" "p" =
      some ⟨"p", "ns", ⟨"c", some 2⟩, ⟨1⟩⟩ :=
  have h := c8_status_sync_frame convergedStore "ns" "p" convergedParent
    convergedChild (by decide) (by decide) (by decide) (by decide)
  ⟨h.1, h.2.1, h.2.2.1⟩

/-- C5 counterexample: with the parent carrying a stale status value and no
child yet, the first call creates the child and the second call — on a
system unchanged in between — still issues a status write and changes the
state (it rewrites the parent's status), so the claimed mutation-free,
state-preserving second call fails. -/
theorem c5_second_call_mutates_cex :
    (reconcile noFaults c5Store "ns" "p").outcome = Outcome.ok ∧
    (reconcile noFaults (reconcile noFaults c5Store "ns" "p").store
      "ns" "p").outcome = Outcome.ok ∧
    (reconcile noFaults (reconcile noFaults c5Store "ns" "p").store
      "ns" "p").muts ≠ [] ∧
    (reconcile noFaults (reconcile noFaults c5Store "ns" "p").store
      "ns" "p").store ≠ (reconcile noFaults c5Store "ns" "p").store := by
  decide

/-- C5 (amended): on an unchanged and already converged system — the child
exists with the expected replica count, no stale children, and the
parent's status already equals the child's observed ready count — a
reconcile call leaves the store exactly as it was while still issuing one
status write (of the value already present), and a second consecutive
call returns the identical result: states after both calls agree, and the
second call performs no create, scale or delete, only the same redundant
status write. -/
theorem c5_converged_idempotent (s : Store) (ns n : String) (p : MyKind)
    (d : Deployment)
    (hp : getMyKind s ns n = some p)
    (hdup : ∀ m ∈ s.myKinds,
      (m.nspace == p.nspace && m.name == p.name) = true → m = p)
    (hstale : ∀ e ∈ listOwnedDeployments s p,
      (e.name == p.spec.deploymentName) = true)
    (hd : getDeployment s p.nspace p.spec.deploymentName = some d)
    (hrepl : d.spec.replicas = some (expectedReplicas p))
    (hready : p.status.readyReplicas = d.status.readyReplicas) :
    reconcile noFaults s ns n =
      ⟨s, [Mut.statusU p.nspace p.name d.status.readyReplicas], [],
       Outcome.ok⟩ ∧
    reconcile noFaults (reconcile noFaults s ns n).store ns n =
      reconcile noFaults s ns n := by
  have hre := reconcile_eq_afterCleanup noFaults s ns n p rfl rfl rfl hp
  rw [cleanupOwned_noop noFaults ⟨s, [], []⟩ p rfl hstale] at hre
  have hss := afterCleanup_statusSync noFaults p ⟨s, [], []⟩ d rfl hd hrepl rfl
  have hfull := hre.trans hss
  have hself : updateMyKindStatus s p.nspace p.name d.status.readyReplicas
      = s :=
    updateMyKindStatus_self s p.nspace p.name d.status.readyReplicas p
      hdup hready
  rw [show updateMyKindStatus (⟨s, [], []⟩ : PassSt).store p.nspace p.name
      d.status.readyReplicas = s from hself] at hfull
  refine ⟨hfull, ?_⟩
  rw [hfull]
  exact hfull

theorem c5_converged_idempotent_witness :
    reconcile noFaults convergedStore "ns" "p" =
      ⟨convergedStore, [Mut.statusU "ns" "p" 1], [], Outcome.ok⟩ ∧
    reconcile noFaults (reconcile noFaults convergedStore "ns" "p").store
        "ns" "p" =
      reconcile noFaults convergedStore "ns" "p" :=
  c5_converged_idempotent convergedStore "ns" "p" convergedParent
    convergedChild (by decide) (by decide) (by decide) (by decide)
    (by decide) rfl

theorem afterCleanup_ne_nilDeref (f : Faults) (mk : MyKind) (st : PassSt)
    (h : ∀ dep, getDeployment st.store mk.nspace mk.spec.deploymentName =
      some dep → dep.spec.replicas ≠ none) :
    (afterCleanup f mk st).outcome ≠ Outcome.nilDeref := by
  unfold afterCleanup
  split
  · simp
  · split
    · split <;> simp
    · rename_i dep hdep
      split
      · rename_i hrd
        exact absurd hrd (h dep hdep)
      · split
        · split <;> simp
        · split <;> simp

theorem reconcile_no_nilDeref (f : Faults) (s : Store) (ns n : String)
    (h : ∀ e ∈ s.deployments, e.spec.replicas ≠ none) :
    (reconcile f s ns n).outcome ≠ Outcome.nilDeref := by
  by_cases hpf : f.parentGetFails = true
  · simp [reconcile, hpf]
  · cases hgm : getMyKind s ns n with
    | none => simp [reconcile, hpf, hgm]
    | some mk =>
        rcases hc : cleanupOwnedResources f ⟨s, [], []⟩ mk with ⟨st, oe⟩
        cases oe with
        | some e =>
            have hr : reconcile f s ns n =
                ⟨st.store, st.muts, st.evs, Outcome.err e⟩ := by
              simp [reconcile, hpf, hgm, hc]
            simp [hr]
        | none =>
            have hr : reconcile f s ns n = afterCleanup f mk st := by
              simp [reconcile, hpf, hgm, hc]
            rw [hr]
            refine afterCleanup_ne_nilDeref f mk st ?_
            intro dep hdep
            have hsub := cleanupOwned_deployments_subset f mk ⟨s, [], []⟩ dep
            rw [hc] at hsub
            exact h dep (hsub (getDeployment_mem hdep))

/-- C10: when reconcile finds an existing child it unconditionally
dereferences the child's replica-count pointer (`*deployment.Spec.Replicas`):
if the found child's replica count is nil the pass hits the nil
dereference, and conversely passes over stores whose deployments all carry
a defined replica count never do — yet the controller does not itself
establish that precondition, since `buildDeployment` copies the parent's
possibly-absent `spec.replicas` into the child it creates. -/
theorem c10_nil_replica_deref (s : Store) (ns n : String) (p : MyKind)
    (d : Deployment)
    (hp : getMyKind s ns n = some p)
    (hd : getDeployment s p.nspace p.spec.deploymentName = some d)
    (hnil : d.spec.replicas = none) :
    (∀ mk : MyKind, (buildDeployment mk).spec.replicas = mk.spec.replicas) ∧
    (reconcile noFaults s ns n).outcome = Outcome.nilDeref ∧
    (∀ (f : Faults) (s2 : Store) (ns2 n2 : String),
      (∀ e ∈ s2.deployments, e.spec.replicas ≠ none) →
      (reconcile f s2 ns2 n2).outcome ≠ Outcome.nilDeref) := by
  refine ⟨fun mk => rfl, ?_,
    fun f s2 ns2 n2 hh => reconcile_no_nilDeref f s2 ns2 n2 hh⟩
  have hre := reconcile_eq_afterCleanup noFaults s ns n p rfl rfl rfl hp
  have hd2 : getDeployment
      (cleanupOwnedResources noFaults ⟨s, [], []⟩ p).1.store
      p.nspace p.spec.deploymentName = some d := by
    rw [cleanupOwned_getDeployment]
    exact hd
  rw [hre, afterCleanup_nilDeref noFaults p
    (cleanupOwnedResources noFaults ⟨s, [], []⟩ p).1 d rfl hd2 hnil]

theorem c10_nil_replica_deref_witness :
    (buildDeployment noReplicasParent).spec.replicas =
      noReplicasParent.spec.replicas ∧
    (reconcile noFaults nilReplicaStore "ns" "p").outcome =
      Outcome.nilDeref ∧
    (reconcile noFaults convergedStore "ns" "p").outcome ≠
      Outcome.nilDeref :=
  have h := c10_nil_replica_deref nilReplicaStore "ns" "p" noReplicasParent
    (buildDeployment noReplicasParent) (by decide) (by decide) rfl
  ⟨h.1 noReplicasParent, h.2.1,
   h.2.2 noFaults convergedStore "ns" "p" (by decide)⟩
